import Mathlib

/-!
Verification of the core of `vhs-audio-align` (`src/app.py`): the alignment
pipeline `process_audio` and the sample-rate bisection `search`.

Conventions of the embedding:
* Durations (seconds) are modelled as `ℚ`.  All float arithmetic performed by
  the program on durations and on the small integer brackets involved here is
  exact, so the rational model coincides with the Python float semantics.
* Python's `math.inf` initial value of `closest_distance` is modelled by
  `(⊤ : WithTop ℚ)`.
* A Python value that may be `None` is modelled as an `Option`.
* A Python statement that raises an uncaught exception is modelled by an
  `Except PyExc` result.
-/

/-- The uncaught Python exceptions relevant to `search` / `main`. -/
inductive PyExc where
  /-- `ffmpeg.Error` escaping `get_media_duration` on the reference video. -/
  | probeError
  /-- `TypeError`: comparison or arithmetic between a number and `None`. -/
  | typeErrorNone
  /-- `ValueError`: unpacking a tuple of the wrong length. -/
  | unpackValueError
deriving DecidableEq

/-- Python `int(x)` on a real value: truncation toward zero. -/
def truncToInt (q : ℚ) : ℤ := if 0 ≤ q then ⌊q⌋ else ⌈q⌉

/-- Line 218: `mid = int(low + (high - low) / 2)`. -/
def pymid (low high : ℤ) : ℤ :=
  truncToInt ((low : ℚ) + ((high : ℚ) - (low : ℚ)) / 2)

/-- Line 131–140, `sox_cmd_1`: decode the input file to raw PCM.
Parameters `-b bits`, `-c channels` (note: no sample rate is passed). -/
structure DecodeInvocation where
  inputPath : String
  bits : ℤ
  channels : ℤ
deriving DecidableEq

/-- Line 144–152, `mono_cmd`: the `stream-align` realignment stage with
`--sample-size-bytes`, `--stream-sample-rate-hz` and `--json`. -/
structure RealignInvocation where
  sampleSizeBytes : ℤ
  streamSampleRateHz : ℤ
  jsonPath : String
deriving DecidableEq

/-- Line 159–169, `sox_cmd_2`: encode raw PCM into the output container with
`-r rate`, `-b bits`, `-c channels`, writing to `output`. -/
structure EncodeInvocation where
  rateHz : ℤ
  bits : ℤ
  channels : ℤ
  outputPath : String
deriving DecidableEq

/-- One run of `process_audio` (lines 111–179): the three external
invocations it issues and the value it returns. -/
structure ProcessAudioRun where
  decode : DecodeInvocation
  realign : RealignInvocation
  encode : EncodeInvocation
  /-- The returned duration.  `none` models the fall-through `None` return:
  the blanket `except Exception` handlers print and swallow any error
  (including `ffmpeg` failing to probe an absent or zero-length output), so
  `process_audio` can never raise, only return `None`. -/
  result : Option ℚ
deriving DecidableEq

/-- The external world as seen by one search: `runProbe r` is the result of
`ffmpeg`-probing the output file after a pipeline run at rate `r`
(`none` models a raised `ffmpeg.Error`, e.g. an absent or zero-length file);
`refDur` is the probe of the reference video. -/
structure PipelineEnv where
  runProbe : ℤ → Option ℚ
  refDur : Option ℚ

/-- Lines 111–179: `process_audio(input, tbc_path, output, rate_hz, channels,
bits_per_sample)`.  `sample_size_bytes = (bits_per_sample // 8) * channels`
(line 127, Python floor division) is passed to the realign stage together
with the hypothesized rate; the encode stage tags the output with the same
hypothesized rate (line 162).  The try/except swallows every stage error, so
the function returns the probed duration or `None`. -/
def process_audio (env : PipelineEnv) (input tbc_path output : String)
    (rate_hz channels bits_per_sample : ℤ) : ProcessAudioRun :=
  { decode := ⟨input, bits_per_sample, channels⟩
  , realign := ⟨(Int.fdiv bits_per_sample 8) * channels, rate_hz, tbc_path⟩
  , encode := ⟨rate_hz, bits_per_sample, channels, output⟩
  , result := env.runProbe rate_hz }

/-- Lines 209–210: `modified_hz = hz + 50 if (ref_duration < base_duration)
else hz - 50`. -/
def modifiedHz (hz : ℤ) (ref_duration base_duration : ℚ) : ℤ :=
  if ref_duration < base_duration then hz + 50 else hz - 50

/-- Python unpacking of an expression list into the two targets `low, high`:
succeeds only if the list has exactly two elements, otherwise `ValueError`. -/
def unpack2 (l : List ℤ) : Option (ℤ × ℤ) :=
  match l with
  | [a, b] => some (a, b)
  | _ => none

/-- The distance recorded for an evaluated midpoint `m` (line 223):
`abs(ref_duration - duration)`, injected into `WithTop ℚ` so that it can be
compared with the `math.inf` initial `closest_distance`. -/
def distW (dur : ℤ → ℚ) (ref : ℚ) (m : ℤ) : WithTop ℚ :=
  ((|ref - dur m| : ℚ) : WithTop ℚ)

/-- The state returned by the bisection loop of lines 214–233. -/
structure LoopResult where
  closest_hz : ℤ
  closest_distance : WithTop ℚ
  /-- The midpoints evaluated by the loop, in order: one `process_audio`
  run (and hence one overwrite of the output file) per entry. -/
  trace : List ℤ
  final_low : ℤ
  final_high : ℤ
deriving DecidableEq

/-- The loop of lines 217–231, fuel-indexed (the fuel is an upper bound on
the iteration count; `searchLoop` supplies enough).  The duration oracle is
total here: every in-loop `process_audio` run is assumed to return a
duration (a `None` would raise `TypeError` at line 223, see `searchO`).

```
while low <= high:
    mid = int(low + (high - low) / 2)
    duration = process_audio(...)            # dur mid
    dist = abs(ref_duration - duration)
    if dist < closest_distance:
        closest_distance = dist
        closest_hz = mid
    if ref_duration < duration:
        low = mid + 1
    else:
        high = mid - 1
```
-/
def searchLoopF (dur : ℤ → ℚ) (ref : ℚ) :
    ℕ → ℤ → ℤ → ℤ → WithTop ℚ → List ℤ → LoopResult
  | 0, low, high, ch, cd, tr => ⟨ch, cd, tr, low, high⟩
  | n + 1, low, high, ch, cd, tr =>
    if low ≤ high then
      let mid := pymid low high
      let dist := distW dur ref mid
      let ch' := if dist < cd then mid else ch
      let cd' := if dist < cd then dist else cd
      if ref < dur mid then
        searchLoopF dur ref n (mid + 1) high ch' cd' (tr ++ [mid])
      else
        searchLoopF dur ref n low (mid - 1) ch' cd' (tr ++ [mid])
    else ⟨ch, cd, tr, low, high⟩

/-- Lines 214–233 given an established bracket `[low, high]`:
`closest_hz = high`, `closest_distance = math.inf`, then the loop. -/
def searchLoop (dur : ℤ → ℚ) (ref : ℚ) (low high : ℤ) : LoopResult :=
  searchLoopF dur ref (high + 1 - low).toNat low high high ⊤ []

/-- The loop of lines 217–231 with a fallible duration oracle, as reached
from `search`: a `None` duration raises `TypeError` at `abs(ref - None)`. -/
def searchLoopO (dur : ℤ → Option ℚ) (ref : ℚ) :
    ℕ → ℤ → ℤ → ℤ → WithTop ℚ → Except PyExc (ℤ × WithTop ℚ)
  | 0, _, _, ch, cd => .ok (ch, cd)
  | n + 1, low, high, ch, cd =>
    if low ≤ high then
      let mid := pymid low high
      match dur mid with
      | none => .error .typeErrorNone
      | some d =>
        let dist : WithTop ℚ := ((|ref - d| : ℚ) : WithTop ℚ)
        let ch' := if dist < cd then mid else ch
        let cd' := if dist < cd then dist else cd
        if ref < d then searchLoopO dur ref n (mid + 1) high ch' cd'
        else searchLoopO dur ref n low (mid - 1) ch' cd'
    else .ok (ch, cd)

/-- Lines 182–233: `search`.  Probes the reference video, runs the pipeline
once at the base rate `hz`, computes the search direction and `modified_hz`,
then executes line 212

```
low, high = modified_hz, hz if modified_hz < hz else hz, modified_hz
```

whose right-hand side is the three-element tuple
`(modified_hz, (hz if modified_hz < hz else hz), modified_hz)` — the
conditional expression binds tighter than the commas — unpacked into the two
targets `low, high`.  A `None` base duration raises `TypeError` at the
comparison `ref_duration < base_duration` (line 209). -/
def search (env : PipelineEnv) (input_path tbc output_path : String)
    (hz channels bits : ℤ) : Except PyExc (ℤ × WithTop ℚ) :=
  match env.refDur with
  | none => .error .probeError
  | some ref_duration =>
    match (process_audio env input_path tbc output_path hz channels bits).result with
    | none => .error .typeErrorNone
    | some base_duration =>
      let mhz := modifiedHz hz ref_duration base_duration
      match unpack2 [mhz, if mhz < hz then hz else hz, mhz] with
      | none => .error .unpackValueError
      | some lh =>
        searchLoopO env.runProbe ref_duration (lh.2 + 1 - lh.1).toNat
          lh.1 lh.2 lh.2 ⊤

/-- Modelled from the spec: Strategy A (the proportional single-shot
estimate, spec §4.3) is described in the spec but absent from
`src/app.py`, which implements only the bisection `search`.  Step 2:
`estimated_rate = floor(ref_duration * base_rate / base_duration)`. -/
def estimatedRate (ref_duration : ℚ) (base_rate : ℤ) (base_duration : ℚ) : ℤ :=
  ⌊ref_duration * (base_rate : ℚ) / base_duration⌋

/-- The rate whose pipeline output occupies the output path after the loop:
every run writes to the same path and fully overwrites the previous file, so
the file on disk corresponds to the last evaluated midpoint (if any). -/
def finalRateOnDisk (r : LoopResult) : Option ℤ := r.trace.getLast?

/-- A world in which every probe of the output file fails (e.g. the encode
stage always leaves an absent or zero-length file). -/
def envFail : PipelineEnv := ⟨fun _ => none, some 60⟩

/-- A world in which every pipeline run measures 61 s against a 60 s
reference. -/
def envBase : PipelineEnv := ⟨fun _ => some 61, some 60⟩

/-- A duration oracle for concrete loop runs: rate 1 measures exactly the
reference 10 s, every other rate measures 5 s. -/
def durExample : ℤ → ℚ := fun r => if r = 1 then 10 else 5

/-! ## Helper lemmas about the bisection loop -/

lemma pymid_bounds (low high : ℤ) (h : low ≤ high) :
    low ≤ pymid low high ∧ pymid low high ≤ high := by
  set q : ℚ := (low : ℚ) + ((high : ℚ) - (low : ℚ)) / 2 with hq
  have hlq : (low : ℚ) ≤ q := by
    have hc : (low : ℚ) ≤ (high : ℚ) := by exact_mod_cast h
    rw [hq]; linarith
  have hqh : q ≤ (high : ℚ) := by
    have hc : (low : ℚ) ≤ (high : ℚ) := by exact_mod_cast h
    rw [hq]; linarith
  unfold pymid truncToInt
  rw [← hq]
  split_ifs with h0
  · constructor
    · exact Int.le_floor.mpr hlq
    · have hf : ((⌊q⌋ : ℤ) : ℚ) ≤ (high : ℚ) := le_trans (Int.floor_le q) hqh
      exact_mod_cast hf
  · constructor
    · have hc : (low : ℚ) ≤ ((⌈q⌉ : ℤ) : ℚ) := le_trans hlq (Int.le_ceil q)
      exact_mod_cast hc
    · exact Int.ceil_le.mpr hqh

lemma searchLoopF_cd_le (dur : ℤ → ℚ) (ref : ℚ) :
    ∀ (n : ℕ) (low high ch : ℤ) (cd : WithTop ℚ) (tr : List ℤ),
      (searchLoopF dur ref n low high ch cd tr).closest_distance ≤ cd := by
  intro n
  induction n with
  | zero => intro low high ch cd tr; simp [searchLoopF]
  | succ n ih =>
    intro low high ch cd tr
    by_cases hlh : low ≤ high
    · simp only [searchLoopF]
      rw [if_pos hlh]
      by_cases hd : distW dur ref (pymid low high) < cd
      · simp only [if_pos hd]
        by_cases hrd : ref < dur (pymid low high)
        · rw [if_pos hrd]
          exact le_trans (ih _ _ _ _ _) (le_of_lt hd)
        · rw [if_neg hrd]
          exact le_trans (ih _ _ _ _ _) (le_of_lt hd)
      · simp only [if_neg hd]
        by_cases hrd : ref < dur (pymid low high)
        · rw [if_pos hrd]; exact ih _ _ _ _ _
        · rw [if_neg hrd]; exact ih _ _ _ _ _
    · simp only [searchLoopF]
      rw [if_neg hlh]

lemma searchLoop_cd_ne_top (dur : ℤ → ℚ) (ref : ℚ) (low high : ℤ)
    (h : low ≤ high) :
    (searchLoop dur ref low high).closest_distance ≠ ⊤ := by
  unfold searchLoop
  obtain ⟨k, hk⟩ : ∃ k, (high + 1 - low).toNat = k + 1 :=
    ⟨(high + 1 - low).toNat - 1, by omega⟩
  rw [hk]
  simp only [searchLoopF]
  rw [if_pos h]
  have hd : distW dur ref (pymid low high) < (⊤ : WithTop ℚ) := by
    simp [distW]
  simp only [if_pos hd]
  have hcoe : distW dur ref (pymid low high) ≠ ⊤ := by simp [distW]
  by_cases hrd : ref < dur (pymid low high)
  · rw [if_pos hrd]
    exact ne_top_of_le_ne_top hcoe (searchLoopF_cd_le dur ref _ _ _ _ _ _)
  · rw [if_neg hrd]
    exact ne_top_of_le_ne_top hcoe (searchLoopF_cd_le dur ref _ _ _ _ _ _)

/-- The full loop invariant: with enough fuel, the loop ends with
`final_high < final_low`; the recorded pair `(closest_hz, closest_distance)`
is minimal among the evaluated midpoints (or still the initial pair when it
was never updated); the trace only grows; and the number of iterations is
bounded by the bracket width. -/
lemma searchLoopF_spec (dur : ℤ → ℚ) (ref : ℚ) :
    ∀ (n : ℕ) (low high ch : ℤ) (cd : WithTop ℚ) (tr : List ℤ),
      (high + 1 - low).toNat ≤ n →
      (∀ m ∈ tr, cd ≤ distW dur ref m) →
      (cd = ⊤ ∨ (ch ∈ tr ∧ cd = distW dur ref ch)) →
      ∀ r, r = searchLoopF dur ref n low high ch cd tr →
        r.final_high < r.final_low ∧
        (∀ m ∈ r.trace, r.closest_distance ≤ distW dur ref m) ∧
        (r.closest_distance = ⊤ ∨
          (r.closest_hz ∈ r.trace ∧
            r.closest_distance = distW dur ref r.closest_hz)) ∧
        (∃ ms, r.trace = tr ++ ms) ∧
        r.trace.length ≤ tr.length + (high + 1 - low).toNat := by
  intro n
  induction n with
  | zero =>
    intro low high ch cd tr hn hall hbest r hr
    subst hr
    simp only [searchLoopF]
    exact ⟨by omega, hall, hbest, ⟨[], by simp⟩, by simp⟩
  | succ n ih =>
    intro low high ch cd tr hn hall hbest r hr
    by_cases hlh : low ≤ high
    · have hm := pymid_bounds low high hlh
      subst hr
      simp only [searchLoopF]
      rw [if_pos hlh]
      by_cases hd : distW dur ref (pymid low high) < cd
      · simp only [if_pos hd]
        have hall' : ∀ m ∈ tr ++ [pymid low high],
            distW dur ref (pymid low high) ≤ distW dur ref m := by
          intro m hmem
          rcases List.mem_append.mp hmem with hmem | hmem
          · exact le_of_lt (lt_of_lt_of_le hd (hall m hmem))
          · rw [List.mem_singleton.mp hmem]
        have hbest' : distW dur ref (pymid low high) = ⊤ ∨
            (pymid low high ∈ tr ++ [pymid low high] ∧
              distW dur ref (pymid low high)
                = distW dur ref (pymid low high)) :=
          Or.inr ⟨by simp, rfl⟩
        by_cases hrd : ref < dur (pymid low high)
        · rw [if_pos hrd]
          have H := ih (pymid low high + 1) high (pymid low high)
            (distW dur ref (pymid low high)) (tr ++ [pymid low high])
            (by omega) hall' hbest' _ rfl
          obtain ⟨ms, hms⟩ := H.2.2.2.1
          refine ⟨H.1, H.2.1, H.2.2.1, ⟨[pymid low high] ++ ms, by
            rw [hms]; simp⟩, ?_⟩
          have hlen := H.2.2.2.2
          simp only [List.length_append, List.length_singleton] at hlen
          omega
        · rw [if_neg hrd]
          have H := ih low (pymid low high - 1) (pymid low high)
            (distW dur ref (pymid low high)) (tr ++ [pymid low high])
            (by omega) hall' hbest' _ rfl
          obtain ⟨ms, hms⟩ := H.2.2.2.1
          refine ⟨H.1, H.2.1, H.2.2.1, ⟨[pymid low high] ++ ms, by
            rw [hms]; simp⟩, ?_⟩
          have hlen := H.2.2.2.2
          simp only [List.length_append, List.length_singleton] at hlen
          omega
      · simp only [if_neg hd]
        have hcdne : cd ≠ ⊤ := by
          intro hcd
          rw [hcd] at hd
          exact hd (by simp [distW])
        have hall' : ∀ m ∈ tr ++ [pymid low high], cd ≤ distW dur ref m := by
          intro m hmem
          rcases List.mem_append.mp hmem with hmem | hmem
          · exact hall m hmem
          · rw [List.mem_singleton.mp hmem]; exact le_of_not_lt hd
        have hbest' : cd = ⊤ ∨
            (ch ∈ tr ++ [pymid low high] ∧ cd = distW dur ref ch) := by
          rcases hbest with hcd | ⟨hch, hcd⟩
          · exact absurd hcd hcdne
          · exact Or.inr ⟨List.mem_append_left _ hch, hcd⟩
        by_cases hrd : ref < dur (pymid low high)
        · rw [if_pos hrd]
          have H := ih (pymid low high + 1) high ch cd (tr ++ [pymid low high])
            (by omega) hall' hbest' _ rfl
          obtain ⟨ms, hms⟩ := H.2.2.2.1
          refine ⟨H.1, H.2.1, H.2.2.1, ⟨[pymid low high] ++ ms, by
            rw [hms]; simp⟩, ?_⟩
          have hlen := H.2.2.2.2
          simp only [List.length_append, List.length_singleton] at hlen
          omega
        · rw [if_neg hrd]
          have H := ih low (pymid low high - 1) ch cd (tr ++ [pymid low high])
            (by omega) hall' hbest' _ rfl
          obtain ⟨ms, hms⟩ := H.2.2.2.1
          refine ⟨H.1, H.2.1, H.2.2.1, ⟨[pymid low high] ++ ms, by
            rw [hms]; simp⟩, ?_⟩
          have hlen := H.2.2.2.2
          simp only [List.length_append, List.length_singleton] at hlen
          omega
    · subst hr
      simp only [searchLoopF]
      rw [if_neg hlh]
      exact ⟨show high < low by omega, hall, hbest, ⟨[], by simp⟩,
        show tr.length ≤ tr.length + (high + 1 - low).toNat by omega⟩

/-! ## Claim theorems -/

/-- C1: the claim says that after the direction step the bracket satisfies
`low <= high` with `{low, high} = {hz, modified_hz}`.  In the code this is
false: line 212 unpacks the three-element tuple
`(modified_hz, hz, modified_hz)` into the two targets `low, high`, which
raises `ValueError`, so whenever the base run yields a duration, `search`
crashes before any bracket exists. -/
theorem c1_search_crashes_on_bracket_unpack (env : PipelineEnv)
    (input tbc output : String) (hz channels bits : ℤ) (ref base : ℚ)
    (h1 : env.refDur = some ref)
    (h2 : env.runProbe hz = some base) :
    search env input tbc output hz channels bits
      = Except.error PyExc.unpackValueError := by
  unfold search
  rw [h1]
  simp only [process_audio]
  rw [h2]
  rfl

/-- C1 witness: a concrete world in which the base run measures 61 s against
a 60 s reference; `search` raises `ValueError` at the bracket assignment. -/
theorem c1_search_crashes_on_bracket_unpack_witness :
    search envBase "in.wav" "tbc.json" "out.wav" 44100 2 16
      = Except.error PyExc.unpackValueError :=
  c1_search_crashes_on_bracket_unpack envBase "in.wav" "tbc.json" "out.wav"
    44100 2 16 60 61 rfl rfl

/-- C2: the claim says a run whose output file is absent or zero-length
raises `PipelineError`.  In the code there is no `PipelineError` at all: the
blanket `except Exception` handler prints and falls through, so
`process_audio` returns `None` — an absent success value — whenever probing
the output fails. -/
theorem c2_pipeline_swallows_output_probe_failure (env : PipelineEnv)
    (input tbc output : String) (rate_hz channels bits : ℤ)
    (h : env.runProbe rate_hz = none) :
    (process_audio env input tbc output rate_hz channels bits).result
      = none := by
  simp [process_audio, h]

/-- C2 witness: in a world where every probe of the output file fails, the
pipeline run at 44100 Hz returns `None` instead of raising. -/
theorem c2_pipeline_swallows_output_probe_failure_witness :
    (process_audio envFail "in.wav" "tbc.json" "out.wav" 44100 2 16).result
      = none :=
  c2_pipeline_swallows_output_probe_failure envFail "in.wav" "tbc.json"
    "out.wav" 44100 2 16 rfl

/-- C3: the claim says that when no pipeline run yields a duration the
program terminates with a clean diagnostic and never crashes on arithmetic
over `None`.  In the code, a `None` base duration reaches the comparison
`ref_duration < base_duration` (line 209), which raises `TypeError`. -/
theorem c3_search_crashes_on_missing_duration (env : PipelineEnv)
    (input tbc output : String) (hz channels bits : ℤ) (ref : ℚ)
    (h1 : env.refDur = some ref)
    (h2 : env.runProbe hz = none) :
    search env input tbc output hz channels bits
      = Except.error PyExc.typeErrorNone := by
  unfold search
  rw [h1]
  simp only [process_audio]
  rw [h2]

/-- C3 witness: with every pipeline run failing to yield a duration,
`search` raises `TypeError` at `ref_duration < None`. -/
theorem c3_search_crashes_on_missing_duration_witness :
    search envFail "in.wav" "tbc.json" "out.wav" 44100 2 16
      = Except.error PyExc.typeErrorNone :=
  c3_search_crashes_on_missing_duration envFail "in.wav" "tbc.json" "out.wav"
    44100 2 16 60 rfl rfl

/-- C4: the bisection loop (lines 214–233) terminates exactly when
`low > high` and returns the best-seen pair: the returned rate is an
evaluated midpoint whose distance equals the returned distance, and that
distance is minimal over all midpoints evaluated during the loop. -/
theorem c4_loop_returns_best_seen (dur : ℤ → ℚ) (ref : ℚ) (low high : ℤ)
    (h : low ≤ high) :
    (searchLoop dur ref low high).final_high
        < (searchLoop dur ref low high).final_low ∧
    (searchLoop dur ref low high).closest_hz
        ∈ (searchLoop dur ref low high).trace ∧
    (searchLoop dur ref low high).closest_distance
        = distW dur ref (searchLoop dur ref low high).closest_hz ∧
    ∀ m ∈ (searchLoop dur ref low high).trace,
      (searchLoop dur ref low high).closest_distance ≤ distW dur ref m := by
  have hs := searchLoopF_spec dur ref (high + 1 - low).toNat low high high ⊤ []
    (le_refl _) (by simp) (Or.inl rfl) (searchLoop dur ref low high) rfl
  have hne := searchLoop_cd_ne_top dur ref low high h
  rcases hs with ⟨hfin, hallm, hbest, -, -⟩
  rcases hbest with htop | ⟨hmem, heq⟩
  · exact absurd htop hne
  · exact ⟨hfin, hmem, heq, hallm⟩

/-- C4 witness: on a concrete bracket `[0, 2]` the returned rate is one of
the evaluated midpoints. -/
theorem c4_loop_returns_best_seen_witness :
    (searchLoop durExample 10 0 2).closest_hz
      ∈ (searchLoop durExample 10 0 2).trace :=
  (c4_loop_returns_best_seen durExample 10 0 2 (by decide)).2.1

/-- C5: the loop always terminates: when `low ≤ high` the midpoint lies in
`[low, high]`, both possible bracket updates strictly shrink `high - low`,
and the number of iterations (evaluated midpoints) is bounded by the initial
bracket width. -/
theorem c5_loop_shrinks_and_terminates (dur : ℤ → ℚ) (ref : ℚ)
    (low high : ℤ) (h : low ≤ high) :
    low ≤ pymid low high ∧ pymid low high ≤ high ∧
    high - (pymid low high + 1) < high - low ∧
    (pymid low high - 1) - low < high - low ∧
    (searchLoop dur ref low high).trace.length ≤ (high + 1 - low).toNat := by
  have hm := pymid_bounds low high h
  refine ⟨hm.1, hm.2, by omega, by omega, ?_⟩
  have hs := searchLoopF_spec dur ref (high + 1 - low).toNat low high high ⊤ []
    (le_refl _) (by simp) (Or.inl rfl) (searchLoop dur ref low high) rfl
  have hlen := hs.2.2.2.2
  simpa using hlen

/-- C5 witness: on the concrete bracket `[0, 2]` the midpoint is interior
and the loop performs at most three iterations. -/
theorem c5_loop_shrinks_and_terminates_witness :
    (0 : ℤ) ≤ pymid 0 2 ∧ pymid 0 2 ≤ 2 ∧
    (2 : ℤ) - (pymid 0 2 + 1) < 2 - 0 ∧
    (pymid 0 2 - 1) - 0 < 2 - 0 ∧
    (searchLoop durExample 10 0 2).trace.length ≤ ((2 : ℤ) + 1 - 0).toNat :=
  c5_loop_shrinks_and_terminates durExample 10 0 2 (by decide)

/-- C6: the direction step (lines 209–210): if the reference is shorter than
the base-rate output the modified rate is `hz + 50`, otherwise `hz - 50`. -/
theorem c6_direction_step (hz : ℤ) (ref base : ℚ) :
    (ref < base → modifiedHz hz ref base = hz + 50) ∧
    (¬ ref < base → modifiedHz hz ref base = hz - 50) := by
  constructor <;> intro h <;> simp [modifiedHz, h]

/-- C6 witness: a 60 s reference against a 61 s base output steps up by
50 Hz; the reverse situation steps down by 50 Hz. -/
theorem c6_direction_step_witness :
    modifiedHz 44100 60 61 = 44100 + 50 ∧
    modifiedHz 44100 61 60 = 44100 - 50 :=
  ⟨(c6_direction_step 44100 60 61).1 (by norm_num),
   (c6_direction_step 44100 61 60).2 (by norm_num)⟩

/-- C7: with `bits = 8 * k` (the data-model invariant: bits-per-sample a
multiple of 8), the realign stage is invoked with frame size
`(bits / 8) * channels = k * channels` and the hypothesized rate, and the
encode stage tags the output with the same hypothesized rate. -/
theorem c7_realign_and_encode_params (env : PipelineEnv)
    (input tbc output : String) (rate_hz channels k : ℤ) :
    (process_audio env input tbc output rate_hz channels
        (8 * k)).realign.sampleSizeBytes = k * channels ∧
    (process_audio env input tbc output rate_hz channels
        (8 * k)).realign.streamSampleRateHz = rate_hz ∧
    (process_audio env input tbc output rate_hz channels
        (8 * k)).encode.rateHz = rate_hz := by
  refine ⟨?_, rfl, rfl⟩
  show Int.fdiv (8 * k) 8 * channels = k * channels
  rw [Int.mul_fdiv_cancel_left k (by norm_num)]

lemma estimatedRate_spec_example :
    estimatedRate 60 44100 (60816 / 1000) = 43508 := by
  norm_num [estimatedRate, Int.floor_eq_iff]

/-- C8 counterexample: on the spec's worked example the formula does not
yield 43509. -/
theorem c8_strategy_a_example_not_43509 :
    estimatedRate 60 44100 (60816 / 1000) ≠ 43509 := by
  rw [estimatedRate_spec_example]
  decide

/-- C8 amended: `floor(60.000 * 44100 / 60.816) = 43508`. -/
theorem c8_strategy_a_example_value :
    estimatedRate 60 44100 (60816 / 1000) = 43508 :=
  estimatedRate_spec_example

/-- C9: every pipeline run of one search writes to the same output path
(the `output` argument threaded through unchanged), the file is overwritten
on each run so after the loop it holds the output of the last evaluated
midpoint, and on a concrete run that last midpoint (0) differs from the
returned best rate (1). -/
theorem c9_output_path_overwritten_by_last_run :
    (∀ (env : PipelineEnv) (input tbc output : String)
        (rate_hz channels bits : ℤ),
      (process_audio env input tbc output rate_hz channels
          bits).encode.outputPath = output) ∧
    finalRateOnDisk (searchLoop durExample 10 0 2) = some 0 ∧
    (searchLoop durExample 10 0 2).closest_hz = 1 ∧
    some (searchLoop durExample 10 0 2).closest_hz
      ≠ finalRateOnDisk (searchLoop durExample 10 0 2) := by
  have hrun : searchLoop durExample 10 0 2
      = ⟨1, ((0 : ℚ) : WithTop ℚ), [1, 0], 0, -1⟩ := by
    have h1 : pymid 0 2 = 1 := by norm_num [pymid, truncToInt]
    have h2 : pymid 0 0 = 0 := by norm_num [pymid, truncToInt]
    have h3 : ((2 : ℤ) + 1 - 0).toNat = 3 := by decide
    rw [searchLoop, h3]
    simp [searchLoopF, h1, h2, distW, durExample]
    norm_num
  refine ⟨fun env input tbc output rate_hz channels bits => rfl, ?_, ?_, ?_⟩
  · rw [hrun]; rfl
  · rw [hrun]
  · rw [hrun]
    simp [finalRateOnDisk]

/-- C10: the base-rate run feeds only the direction step: the best-seen
distance starts at infinity and is updated only from loop midpoints, so
(i) if the loop body never executes, the returned pair is the initial
`(high, ∞)` with an empty trace, and (ii) whenever the loop runs, the
returned rate is one of the evaluated midpoints — in particular the base
rate `hz` can be returned only if it reappears as a midpoint. -/
theorem c10_base_run_contributes_only_direction :
    (∀ (dur : ℤ → ℚ) (ref : ℚ) (low high : ℤ), high < low →
        searchLoop dur ref low high = ⟨high, ⊤, [], low, high⟩) ∧
    (∀ (dur : ℤ → ℚ) (ref : ℚ) (low high : ℤ), low ≤ high →
        (searchLoop dur ref low high).closest_hz
          ∈ (searchLoop dur ref low high).trace) := by
  constructor
  · intro dur ref low high hlt
    unfold searchLoop
    have h0 : (high + 1 - low).toNat = 0 := by omega
    rw [h0]
    rfl
  · intro dur ref low high hle
    have hs := searchLoopF_spec dur ref (high + 1 - low).toNat low high high ⊤
      [] (le_refl _) (by simp) (Or.inl rfl) (searchLoop dur ref low high) rfl
    have hne := searchLoop_cd_ne_top dur ref low high hle
    rcases hs.2.2.1 with htop | ⟨hmem, -⟩
    · exact absurd htop hne
    · exact hmem

/-- C10 witness: an empty bracket `[1, 0]` returns `(0, ∞)` with no
evaluated midpoints; on the bracket `[0, 2]` the returned rate is an
evaluated midpoint. -/
theorem c10_base_run_contributes_only_direction_witness :
    searchLoop durExample 10 1 0 = ⟨0, ⊤, [], 1, 0⟩ ∧
    (searchLoop durExample 10 0 2).closest_hz
      ∈ (searchLoop durExample 10 0 2).trace :=
  ⟨c10_base_run_contributes_only_direction.1 durExample 10 1 0 (by decide),
   c10_base_run_contributes_only_direction.2 durExample 10 0 2 (by decide)⟩
